import Mathlib

set_option maxRecDepth 100000

/-!
# Verification of the Xuno FAQ semantic-matching engine

Shallow embedding of the two ranking pipelines of the repository
(`src/query_faqs.py`, the relational-store variant, and
`src/query_faqs_qdrant.py`, the vector-index variant) together with the
text-similarity primitive they share (`difflib.SequenceMatcher.ratio`).

Modelling conventions:
* Python floats are modelled as exact rationals (`ℚ`); the literals
  `0.5, 0.3, 0.2, 0.15, 0.05, 0.7` of the source become
  `1/2, 3/10, 1/5, 3/20, 1/20, 7/10`.
* `cosine_similarity` computes `dot/(‖v‖·‖w‖)`, which is irrational in
  general; every pipeline definition is therefore parametric in the
  similarity primitive `sim : List ℚ → List ℚ → ℚ` and every theorem
  quantifies over it, so the results hold for the actual cosine.
* The textual parsing of a stored vector (`strip` of brackets, comma
  split) is abstracted to its result: a row carries the parsed
  `List ℚ` embedding.
* Database / index access is modelled with `Except`: `.error` is a
  raised exception at the retrieval boundary, `.ok` a response.
-/

namespace XunoFaq

/-!
## difflib.SequenceMatcher (CPython), as used by both pipelines

Both variants call `difflib.SequenceMatcher(None, s1, s2).ratio()`.
The model below follows the CPython implementation with `isjunk = None`:
* `newRow` is one row of the `j2len` dynamic program of
  `find_longest_match` (the dict with default 0 is a `List Nat` read
  through `getD · 0`);
* `bestStep` is the in-loop update of `besti, bestj, bestsize`
  (a later block replaces the best only when strictly longer);
* `extendLeft`/`extendRight` are the "extend the best by non-junk
  elements" loops.  With `isjunk = None` the junk set is empty, so the
  two junk-extension loops of CPython can never fire and are omitted.
  The `autojunk` popularity heuristic (only active when the second
  string has 200+ characters) is not modelled.
* `matchesFuel` is `get_matching_blocks` restricted to the total
  matched size; the recursion depth is bounded by `a.length + 1`, so
  the fuel never runs out on the regions produced by
  `findLongestMatch`.
* `ratio` is `2.0 * matches / total` (and 1.0 on two empty strings).
-/

/-- One row of the `j2len` dynamic program of CPython
`SequenceMatcher.find_longest_match`, for the row character `ai`. -/
def newRow (b : List Char) (blo bhi : Nat) (ai : Char) (row : List Nat) : List Nat :=
  (List.range bhi).map fun j =>
    if blo ≤ j ∧ b.getD j ' ' = ai then (if blo < j then row.getD (j - 1) 0 else 0) + 1 else 0

/-- The `besti, bestj, bestsize` update of `find_longest_match` at
column `j` of row `i`: a block replaces the best only when strictly
longer, so ties keep the earliest block. -/
def bestStep (b : List Char) (blo : Nat) (i : Nat) (ai : Char) (row : List Nat)
    (best : Nat × Nat × Nat) (j : Nat) : Nat × Nat × Nat :=
  if b.getD j ' ' = ai then
    let k := (if blo < j then row.getD (j - 1) 0 else 0) + 1
    if best.2.2 < k then (i + 1 - k, j + 1 - k, k) else best
  else best

/-- One outer-loop iteration of `find_longest_match` (row `i`). -/
def rowStep (a b : List Char) (blo bhi : Nat) (st : List Nat × (Nat × Nat × Nat)) (i : Nat) :
    List Nat × (Nat × Nat × Nat) :=
  let ai := a.getD i ' '
  (newRow b blo bhi ai st.1,
   (List.range' blo (bhi - blo)).foldl (bestStep b blo i ai st.1) st.2)

/-- The dynamic-programming part of `find_longest_match`. -/
def dpBest (a b : List Char) (alo ahi blo bhi : Nat) : Nat × Nat × Nat :=
  ((List.range' alo (ahi - alo)).foldl (rowStep a b blo bhi)
    (List.replicate bhi 0, (alo, blo, 0))).2

/-- `while besti > alo and bestj > blo and a[besti-1] == b[bestj-1]` of
`find_longest_match` (the junk set is empty with `isjunk = None`). -/
def extendLeft (a b : List Char) (alo blo : Nat) (besti bestj bestk : Nat) : Nat × Nat × Nat :=
  if alo < besti ∧ blo < bestj ∧ a.getD (besti - 1) ' ' = b.getD (bestj - 1) ' ' then
    extendLeft a b alo blo (besti - 1) (bestj - 1) (bestk + 1)
  else (besti, bestj, bestk)
termination_by besti
decreasing_by omega

/-- `while besti+bestk < ahi and bestj+bestk < bhi and
a[besti+bestk] == b[bestj+bestk]` of `find_longest_match`. -/
def extendRight (a b : List Char) (ahi bhi : Nat) (besti bestj bestk : Nat) : Nat × Nat × Nat :=
  if besti + bestk < ahi ∧ bestj + bestk < bhi ∧
      a.getD (besti + bestk) ' ' = b.getD (bestj + bestk) ' ' then
    extendRight a b ahi bhi besti bestj (bestk + 1)
  else (besti, bestj, bestk)
termination_by ahi - bestk
decreasing_by omega

/-- CPython `SequenceMatcher.find_longest_match` on the region
`a[alo:ahi]`, `b[blo:bhi]` (no junk, no autojunk). -/
def findLongestMatch (a b : List Char) (alo ahi blo bhi : Nat) : Nat × Nat × Nat :=
  let d := dpBest a b alo ahi blo bhi
  let l := extendLeft a b alo blo d.1 d.2.1 d.2.2
  extendRight a b ahi bhi l.1 l.2.1 l.2.2

/-- Total size of the matching blocks of `get_matching_blocks`
(the queue recursion of CPython, here with an explicit fuel that is
never exhausted on regions coming from `findLongestMatch`). -/
def matchesFuel (a b : List Char) : Nat → Nat → Nat → Nat → Nat → Nat
  | 0, _, _, _, _ => 0
  | fuel + 1, alo, ahi, blo, bhi =>
    let m := findLongestMatch a b alo ahi blo bhi
    if m.2.2 = 0 then 0
    else
      m.2.2 + matchesFuel a b fuel alo m.1 blo m.2.1 +
        matchesFuel a b fuel (m.1 + m.2.2) ahi (m.2.1 + m.2.2) bhi

/-- Sum of the sizes of all matching blocks of `a` and `b`. -/
def totalMatches (a b : List Char) : Nat :=
  matchesFuel a b (a.length + 1) 0 a.length 0 b.length

/-- CPython `SequenceMatcher.ratio()` : `2.0*M/T`, and `1.0` when both
strings are empty. -/
def ratioChars (a b : List Char) : ℚ :=
  let total := a.length + b.length
  if total = 0 then 1 else 2 * (totalMatches a b : ℚ) / (total : ℚ)

/-- `difflib.SequenceMatcher(None, s1, s2).ratio()` on strings; this is
the `orthographic_similarity` value of both pipelines (which apply it
to the already lower-cased query and question). -/
def orthographic_similarity (s1 s2 : String) : ℚ :=
  ratioChars s1.data s2.data

/-!
## Lexical feature extraction and the boost rule engine

Shared verbatim between `src/query_faqs.py` (lines 100-172) and
`src/query_faqs_qdrant.py` (lines 61-120); the two copies differ only
in the word sets used by the "create"/"sign up" special case, so the
two boost functions are modelled separately, each following its file.
Python's `set(...)` is modelled as a deduplicated list (membership and
cardinality are all the code uses).
-/

/-- Python `str.lower()` (ASCII range, which covers the fixed rule
sets): lower-case every character.  (`String.toLower` of core maps the
same `Char.toLower` over the characters but through a non-reducible
auxiliary, so the map is spelled out.) -/
def pyLower (s : String) : String :=
  ⟨s.data.map Char.toLower⟩

/-- Python `str.split()` with no separator: split on whitespace runs,
no empty tokens. -/
def splitWhitespace (s : String) : List String :=
  (s.split Char.isWhitespace).filter (fun w => w ≠ "")

/-- The fixed stop-word set of both pipelines. -/
def stop_words : List String :=
  ["the", "a", "an", "and", "or", "but", "in", "on", "at", "to", "for", "of", "with", "by",
   "is", "are", "was", "were", "be", "been", "have", "has", "had", "do", "does", "did",
   "will", "would", "could", "should", "may", "might", "must", "can",
   "hi", "hello", "hey", "how", "what", "who", "where", "when", "why"]

/-- `set(w for w in s.split() if w not in stop_words and len(w) > 2)` :
the meaningful-word set of a lower-cased text. -/
def meaningfulWords (s : String) : List String :=
  ((splitWhitespace s).filter (fun w => decide (w ∉ stop_words ∧ 2 < w.length))).dedup

/-- `set(s.split())` : the raw lower-cased word set. -/
def rawWords (s : String) : List String :=
  (splitWhitespace s).dedup

/-- The fixed related-term table (query trigger set, FAQ target set). -/
def related_term_pairs : List (List String × List String) :=
  [(["create", "make", "setup", "start", "new"], ["sign", "up", "register", "account"]),
   (["delete", "remove", "cancel"], ["delete", "remove", "cancel", "close"]),
   (["password", "login", "signin", "access"], ["password", "login", "sign", "access"]),
   (["bank", "account", "money", "transfer"], ["bank", "account", "money", "transfer"])]

/-- The fixed out-of-domain term set. -/
def out_of_domain_terms : List String :=
  ["dresscode", "dress", "code", "hotdog", "pasta", "cooking", "sunday",
   "leaves", "leave", "vacation", "holiday"]

/-- `query_words.intersection(out_of_domain_terms)` is non-empty: the
raw lower-cased query word set meets the out-of-domain set. -/
def oodHit (uql : String) : Bool :=
  (rawWords uql).any (fun w => out_of_domain_terms.contains w)

/-- The boost computed by the relational-store variant
(`src/query_faqs.py` lines 100-155) for the lower-cased query `uql`
and lower-cased FAQ question `fql`.  Rules in source order:
orthographic (`> 0.3` gate), meaningful-word match ratio, literal
substring, per-word increments, the "create"/"sign up" special case on
the RAW word sets, then the related-term pairs.  The out-of-domain
penalty is not part of this function (it multiplies
`keyword_similarity` later). -/
def relationalBoost (uql fql : String) : ℚ :=
  let ortho := orthographic_similarity uql fql
  let boost : ℚ := 0
  let boost := if 3/10 < ortho then boost + ortho * (1/5) else boost
  let querySet := meaningfulWords uql
  let faqSet := meaningfulWords fql
  let common := querySet.filter (fun w => faqSet.contains w)
  let boost := if common ≠ [] then
      boost + (if querySet ≠ [] then (common.length : ℚ) / (querySet.length : ℚ) else 0) * (3 / 20)
    else boost
  let boost := if uql.data <:+: fql.data then boost + 3/10 else boost
  let boost := querySet.foldl (fun b w => if faqSet.contains w then b + 1/20 else b) boost
  let queryRaw := rawWords uql
  let faqRaw := rawWords fql
  let boost := if "create" ∈ queryRaw ∧ "sign" ∈ faqRaw ∧ "up" ∈ faqRaw then boost + 1/5 else boost
  related_term_pairs.foldl
    (fun b p =>
      if p.1.any (fun w => queryRaw.contains w) ∧ p.2.any (fun w => faqRaw.contains w) then
        b + 3/20
      else b)
    boost

/-- The guard of the "create"/"sign up" special case of the
vector-index variant (`src/query_faqs_qdrant.py` line 94): it tests
`query_set`/`faq_set`, the stop-word- and length-filtered meaningful
word sets — not the raw sets the relational variant uses. -/
def qdrantSpecialCond (uql fql : String) : Bool :=
  (meaningfulWords uql).contains "create" &&
    ((meaningfulWords fql).contains "sign" && (meaningfulWords fql).contains "up")

/-- The boost computed by the vector-index variant
(`src/query_faqs_qdrant.py` lines 64-111): identical to
`relationalBoost` except that its special case is guarded by
`qdrantSpecialCond`. -/
def qdrantBoost (uql fql : String) : ℚ :=
  let ortho := orthographic_similarity uql fql
  let boost : ℚ := 0
  let boost := if 3/10 < ortho then boost + ortho * (1/5) else boost
  let querySet := meaningfulWords uql
  let faqSet := meaningfulWords fql
  let common := querySet.filter (fun w => faqSet.contains w)
  let boost := if common ≠ [] then
      boost + (if querySet ≠ [] then (common.length : ℚ) / (querySet.length : ℚ) else 0) * (3 / 20)
    else boost
  let boost := if uql.data <:+: fql.data then boost + 3/10 else boost
  let boost := querySet.foldl (fun b w => if faqSet.contains w then b + 1/20 else b) boost
  let boost := if qdrantSpecialCond uql fql then boost + 1/5 else boost
  let queryRaw := rawWords uql
  let faqRaw := rawWords fql
  related_term_pairs.foldl
    (fun b p =>
      if p.1.any (fun w => queryRaw.contains w) ∧ p.2.any (fun w => faqRaw.contains w) then
        b + 3/20
      else b)
    boost

/-- The relational boost chain with the exact-phrase (substring) rule
(`query_faqs.py` lines 126-128) removed — identical to
`relationalBoost` otherwise; used to isolate the exact contribution of
that rule. -/
def relationalBoostNoPhrase (uql fql : String) : ℚ :=
  let ortho := orthographic_similarity uql fql
  let boost : ℚ := 0
  let boost := if 3/10 < ortho then boost + ortho * (1/5) else boost
  let querySet := meaningfulWords uql
  let faqSet := meaningfulWords fql
  let common := querySet.filter (fun w => faqSet.contains w)
  let boost := if common ≠ [] then
      boost + (if querySet ≠ [] then (common.length : ℚ) / (querySet.length : ℚ) else 0) * (3 / 20)
    else boost
  let boost := querySet.foldl (fun b w => if faqSet.contains w then b + 1/20 else b) boost
  let queryRaw := rawWords uql
  let faqRaw := rawWords fql
  let boost := if "create" ∈ queryRaw ∧ "sign" ∈ faqRaw ∧ "up" ∈ faqRaw then boost + 1/5 else boost
  related_term_pairs.foldl
    (fun b p =>
      if p.1.any (fun w => queryRaw.contains w) ∧ p.2.any (fun w => faqRaw.contains w) then
        b + 3/20
      else b)
    boost

/-!
## The relational-store pipeline (`src/query_faqs.py`)
-/

namespace QueryFaqs

/-- A row of `faq_embeddings` with its vector already parsed from the
bracket/brace-delimited text (the string munging itself is out of the
embedding; a row whose text fails to parse is a row whose vector has
the wrong dimension, handled identically). -/
structure FaqRow where
  faq_id : String
  category : String
  question : String
  answer : String
  embedding : List ℚ
deriving DecidableEq, Repr

/-- A row of `faq_keywords`, vector already parsed. -/
structure KwRow where
  faq_id : String
  keyword : String
  embedding : List ℚ
deriving DecidableEq, Repr

/-- Best cosine similarity of the query against the FAQ's keyword
embeddings (`keyword_similarity`, lines 91-96): keywords whose vector
length differs from the query embedding are passed over, starting
value `0.0`. -/
def keywordSimilarity (sim : List ℚ → List ℚ → ℚ) (qe : List ℚ) (kws : List KwRow) : ℚ :=
  kws.foldl
    (fun acc kw => if kw.embedding.length = qe.length then max acc (sim qe kw.embedding) else acc)
    0

/-- The per-candidate record appended to `similarities`
(line 176): the final score plus the diagnostic components. -/
structure ScoredRow where
  final : ℚ
  base_similarity : ℚ
  keyword_similarity : ℚ
  orthographic : ℚ
  boost : ℚ
  faq_data : FaqRow
deriving DecidableEq, Repr

/-- Scoring of one FAQ row (lines 83-182): skip on dimension mismatch,
base cosine, best keyword cosine, orthographic ratio, boost, the
out-of-domain penalty on `keyword_similarity`, and the weighted final
score. `sim` stands for `cosine_similarity`. -/
def processRow (sim : List ℚ → List ℚ → ℚ) (qe : List ℚ) (uql : String)
    (kmap : String → List KwRow) (row : FaqRow) : Option ScoredRow :=
  if row.embedding.length ≠ qe.length then none
  else
    let base := sim qe row.embedding
    let kwSim := keywordSimilarity sim qe (kmap row.faq_id)
    let fql := pyLower row.question
    let ortho := orthographic_similarity uql fql
    let boost := relationalBoost uql fql
    let adjusted := if oodHit uql then kwSim * (7/10) else kwSim
    some ⟨base * (1/2) + adjusted * (3/10) + ortho * (1/5), base, kwSim, ortho, boost, row⟩

/-- The `similarities` list, in retrieval order (mismatched rows
skipped); the keyword map sends `faq_id` to its keyword rows. -/
def relScored (sim : List ℚ → List ℚ → ℚ) (qe : List ℚ) (uql : String)
    (kws : List KwRow) (faqs : List FaqRow) : List ScoredRow :=
  faqs.filterMap (processRow sim qe uql (fun id => kws.filter (fun k => decide (k.faq_id = id))))

/-- `query_faqs(user_query, db, top_k, min_similarity_threshold)`
(lines 23-197).  Retrieval results arrive as `Except` (the `try`
block): any retrieval failure is caught and yields `[]`; an empty FAQ
table yields `[]`; otherwise score, stable-sort descending by final
score (Python's `list.sort` is stable; `List.insertionSort` with the
reflexive descending relation is the same stable sort), filter by the
threshold, keep `top_k`, and return `(final_score, faq_data)` pairs. -/
def query_faqs (sim : List ℚ → List ℚ → ℚ) (user_query : String)
    (faqResults : Except String (List FaqRow)) (kwResults : Except String (List KwRow))
    (query_embedding : List ℚ) (top_k : Nat) (min_similarity_threshold : ℚ) :
    List (ℚ × FaqRow) :=
  match faqResults, kwResults with
  | .ok faqs, .ok kws =>
    if faqs = [] then []
    else
      let uql := pyLower user_query
      let sorted :=
        (relScored sim query_embedding uql kws faqs).insertionSort fun x y => y.final ≤ x.final
      ((sorted.filter fun x => decide (min_similarity_threshold ≤ x.final)).map
          fun x => (x.final, x.faq_data)).take top_k
  | _, _ => []

end QueryFaqs

/-!
## The vector-index pipeline (`src/query_faqs_qdrant.py`)
-/

namespace QueryFaqsQdrant

/-- One hit returned by the index: the payload fields the code reads
plus the index-computed cosine `score`. -/
structure Hit where
  faq_id : String
  question : String
  category : String
  answer : String
  score : ℚ
deriving DecidableEq, Repr

/-- The per-hit record appended to `processed_results` (line 127). -/
structure ScoredHit where
  final : ℚ
  base_similarity : ℚ
  orthographic : ℚ
  boost : ℚ
  faq_data : Hit
deriving DecidableEq, Repr

/-- The final score of one hit (lines 113-123): the index score,
multiplied by `0.7` when the raw query word set meets the
out-of-domain terms, plus the boost. -/
def hitFinal (uql : String) (h : Hit) : ℚ :=
  (if oodHit uql then h.score * (7/10) else h.score) + qdrantBoost uql (pyLower h.question)

/-- The processing loop over hits (lines 45-133): skip a hit whose
`faq_id` was already accepted (`seen_faq_ids`), score it, and keep it
only when the final score meets the threshold — only then is its
`faq_id` marked seen. -/
def processHits (uql : String) (θ : ℚ) : List Hit → List String → List ScoredHit
  | [], _ => []
  | h :: rest, seen =>
    if h.faq_id ∈ seen then processHits uql θ rest seen
    else
      let fql := pyLower h.question
      let ortho := orthographic_similarity uql fql
      let boost := qdrantBoost uql fql
      let fin := (if oodHit uql then h.score * (7/10) else h.score) + boost
      if θ ≤ fin then
        ⟨fin, h.score, ortho, boost, h⟩ :: processHits uql θ rest (h.faq_id :: seen)
      else processHits uql θ rest seen

/-- The ranking stage on a successful search response (lines 35-139):
empty response guard, hit processing, stable descending sort by final
score (Python's `list.sort` is stable; `List.insertionSort` with the
reflexive descending relation is the same stable sort), `top_k` cut. -/
def rankHits (user_query : String) (hits : List Hit) (top_k : Nat)
    (min_similarity_threshold : ℚ) : List ScoredHit :=
  if hits = [] then []
  else
    let uql := pyLower user_query
    ((processHits uql min_similarity_threshold hits []).insertionSort
        fun x y => y.final ≤ x.final).take top_k

/-- `query_faqs(user_query, qdrant_client, top_k,
min_similarity_threshold)` (lines 17-139).  The search call is NOT
inside a `try`: a raised retrieval error propagates to the caller,
hence the `Except` result. -/
def query_faqs (user_query : String) (search_result : Except String (List Hit))
    (top_k : Nat) (min_similarity_threshold : ℚ) : Except String (List ScoredHit) :=
  match search_result with
  | .error e => .error e
  | .ok hits => .ok (rankHits user_query hits top_k min_similarity_threshold)

end QueryFaqsQdrant

/-!
## Helper lemmas

### The DP of `find_longest_match` on a string against itself

On `(a, a)` over the full region, the diagonal chain of the `j2len`
dynamic program grows by one per row, every other chain stays at or
below it, and the first strict improvement of each row `m` happens on
the diagonal, so the best block after row `m` is `(0, 0, m + 1)`.
-/

theorem getD_map_range (f : Nat → Nat) (n j : Nat) :
    ((List.range n).map f).getD j 0 = if j < n then f j else 0 := by
  rw [List.getD_eq_getElem?_getD, List.getElem?_map]
  by_cases h : j < n
  · simp [List.getElem?_range h, h]
  · have hn : (List.range n)[j]? = none := by
      rw [List.getElem?_eq_none]
      simpa [List.length_range] using Nat.le_of_not_lt h
    simp [hn, h]

theorem getD_replicate_zero (n j : Nat) : (List.replicate n (0 : Nat)).getD j 0 = 0 := by
  rw [List.getD_eq_getElem?_getD]
  rcases h : (List.replicate n (0 : Nat))[j]? with _ | v
  · rfl
  · have hv : v ∈ List.replicate n (0 : Nat) := List.getElem?_mem h
    simp [List.eq_of_mem_replicate hv]

theorem foldl_fixed_of_step {α β : Type} (f : β → α → β) (b : β) (l : List α)
    (h : ∀ x ∈ l, f b x = b) : l.foldl f b = b := by
  induction l with
  | nil => rfl
  | cons x xs ih =>
    rw [List.foldl_cons, h x (List.mem_cons_self x xs)]
    exact ih fun y hy => h y (List.mem_cons_of_mem x hy)

theorem selfFold_invariant (a : List Char) (m : Nat) (hm : m ≤ a.length) :
    (∀ j, ((List.range' 0 m).foldl (rowStep a a 0 a.length)
        (List.replicate a.length 0, (0, 0, 0))).1.getD j 0 ≤ m
      ∧ ((List.range' 0 m).foldl (rowStep a a 0 a.length)
        (List.replicate a.length 0, (0, 0, 0))).1.getD j 0 ≤ j + 1)
    ∧ (1 ≤ m → ((List.range' 0 m).foldl (rowStep a a 0 a.length)
        (List.replicate a.length 0, (0, 0, 0))).1.getD (m - 1) 0 = m)
    ∧ ((List.range' 0 m).foldl (rowStep a a 0 a.length)
        (List.replicate a.length 0, (0, 0, 0))).2 = (0, 0, m) := by
  induction m with
  | zero =>
    refine ⟨fun j => ?_, fun h => absurd h (by omega), rfl⟩
    simp [getD_replicate_zero]
  | succ m ih =>
    obtain ⟨rowB, diag, best⟩ := ih (Nat.le_of_succ_le hm)
    set n := a.length with hn
    set prev := (List.range' 0 m).foldl (rowStep a a 0 n)
      (List.replicate n 0, (0, 0, 0)) with hprev
    have hsplit : List.range' 0 (m + 1) = List.range' 0 m ++ [m] := by
      simpa using List.range'_1_concat 0 m
    rw [hsplit, List.foldl_append, ← hprev]
    simp only [List.foldl_cons, List.foldl_nil]
    -- the new row of the DP
    have hrow : ∀ j, (rowStep a a 0 n prev m).1.getD j 0 =
        if j < n then
          (if 0 ≤ j ∧ a.getD j ' ' = a.getD m ' ' then
            (if 0 < j then prev.1.getD (j - 1) 0 else 0) + 1
          else 0)
        else 0 := by
      intro j
      dsimp [rowStep, newRow]
      rw [getD_map_range]
    have hdiag : (rowStep a a 0 n prev m).1.getD m 0 = m + 1 := by
      rw [hrow]
      have hmn : m < n := by omega
      rw [if_pos hmn, if_pos ⟨Nat.zero_le m, rfl⟩]
      rcases Nat.eq_zero_or_pos m with h0 | h1
      · simp [h0]
      · rw [if_pos h1, diag h1]
    refine ⟨?_, ?_, ?_⟩
    · -- row bounds
      intro j
      rw [hrow]
      split
      · split
        · split
          · have h1 := (rowB (j - 1)).1
            have h2 := (rowB (j - 1)).2
            omega
          · omega
        · omega
      · omega
    · -- the diagonal entry of the new row
      intro _
      simpa using hdiag
    · -- the best block after row m
      have hstep : (rowStep a a 0 n prev m).2 =
          (List.range' 0 n).foldl (bestStep a 0 m (a.getD m ' ') prev.1) prev.2 := by
        dsimp [rowStep]
      have hsplit2 : List.range' 0 n =
          (List.range' 0 m ++ [m]) ++ List.range' (m + 1) (n - (m + 1)) := by
        have h1 : List.range' 0 (m + 1) ++ List.range' (0 + 1 * (m + 1)) (n - (m + 1)) =
            List.range' 0 ((n - (m + 1)) + (m + 1)) := List.range'_append 0 (m + 1) (n - (m + 1)) 1
        rw [← hsplit]
        have h2 : (n - (m + 1)) + (m + 1) = n := by omega
        have h3 : 0 + 1 * (m + 1) = m + 1 := by omega
        rw [h2, h3] at h1
        exact h1.symm
      rw [hstep, best, hsplit2, List.foldl_append, List.foldl_append]
      -- phase 1: columns j < m leave the best unchanged
      have phase1 : (List.range' 0 m).foldl (bestStep a 0 m (a.getD m ' ') prev.1) (0, 0, m) =
          (0, 0, m) := by
        refine foldl_fixed_of_step _ _ _ fun j hj => ?_
        have hjm : j < m := by
          have := List.mem_range'_1.mp hj
          omega
        dsimp [bestStep]
        split
        · have hk : (if 0 < j then prev.1.getD (j - 1) 0 else 0) + 1 ≤ m := by
            split
            · have h2 := (rowB (j - 1)).2
              omega
            · omega
          rw [if_neg (by omega)]
        · rfl
      rw [phase1]
      -- phase 2: the diagonal column j = m records the block (0, 0, m+1)
      have phase2 : (List.foldl (bestStep a 0 m (a.getD m ' ') prev.1) (0, 0, m) [m]) =
          ((0 : Nat), (0 : Nat), m + 1) := by
        simp only [List.foldl_cons, List.foldl_nil]
        dsimp [bestStep]
        rw [if_pos rfl]
        have hk : (if 0 < m then prev.1.getD (m - 1) 0 else 0) + 1 = m + 1 := by
          rcases Nat.eq_zero_or_pos m with h0 | h1
          · simp [h0]
          · rw [if_pos h1, diag h1]
        rw [hk, if_pos (by omega)]
        have he : m + 1 - (m + 1) = 0 := by omega
        rw [he]
      rw [phase2]
      -- phase 3: columns j > m cannot beat the best
      refine foldl_fixed_of_step _ _ _ fun j hj => ?_
      have hjm : m + 1 ≤ j := by
        have := List.mem_range'_1.mp hj
        omega
      dsimp [bestStep]
      split
      · have hk : (if 0 < j then prev.1.getD (j - 1) 0 else 0) + 1 ≤ m + 1 := by
          split
          · have h1 := (rowB (j - 1)).1
            omega
          · omega
        rw [if_neg (by omega)]
      · rfl

theorem dpBest_self (a : List Char) : dpBest a a 0 a.length 0 a.length = (0, 0, a.length) := by
  have h := (selfFold_invariant a a.length le_rfl).2.2
  dsimp [dpBest]
  exact h

theorem extendLeft_base (a b : List Char) (alo blo bestj bestk : Nat) :
    extendLeft a b alo blo alo bestj bestk = (alo, bestj, bestk) := by
  rw [extendLeft]
  rw [if_neg]
  intro h
  exact absurd h.1 (lt_irrefl alo)

theorem extendRight_base (a b : List Char) (ahi bhi besti bestj bestk : Nat)
    (h : ahi ≤ besti + bestk) :
    extendRight a b ahi bhi besti bestj bestk = (besti, bestj, bestk) := by
  rw [extendRight]
  rw [if_neg]
  intro hc
  omega

theorem findLongestMatch_self (a : List Char) :
    findLongestMatch a a 0 a.length 0 a.length = (0, 0, a.length) := by
  dsimp only [findLongestMatch]
  rw [dpBest_self]
  dsimp only
  rw [extendLeft_base]
  dsimp only
  exact extendRight_base a a a.length a.length 0 0 a.length (by omega)

theorem findLongestMatch_empty (a b : List Char) (alo blo bhi : Nat) :
    findLongestMatch a b alo alo blo bhi = (alo, blo, 0) := by
  dsimp only [findLongestMatch, dpBest]
  rw [Nat.sub_self]
  dsimp only [List.range', List.foldl_nil]
  rw [extendLeft_base]
  dsimp only
  exact extendRight_base a b alo bhi alo blo 0 (by omega)

theorem matchesFuel_empty (a b : List Char) (fuel alo blo bhi : Nat) :
    matchesFuel a b (fuel + 1) alo alo blo bhi = 0 := by
  rw [matchesFuel, findLongestMatch_empty]
  simp

theorem ratioChars_nonneg (a b : List Char) : 0 ≤ ratioChars a b := by
  dsimp [ratioChars]
  split
  · norm_num
  · positivity

theorem ortho_nonneg (s1 s2 : String) : 0 ≤ orthographic_similarity s1 s2 :=
  ratioChars_nonneg s1.data s2.data

theorem ite_add_nonneg {P : Prop} [Decidable P] {x c : ℚ} (hx : 0 ≤ x) (hc : 0 ≤ c) :
    0 ≤ if P then x + c else x := by
  split_ifs <;> linarith

theorem le_foldl_of_step {α : Type} (g : ℚ → α → ℚ) (h : ∀ b x, b ≤ g b x) :
    ∀ (l : List α) (b : ℚ), b ≤ l.foldl g b := by
  intro l
  induction l with
  | nil => intro b; simp
  | cons x xs ih => intro b; exact le_trans (h b x) (ih (g b x))

theorem foldl_add_right {α : Type} (g : ℚ → α → ℚ) (hg : ∀ b c x, g (b + c) x = g b x + c) :
    ∀ (l : List α) (b c : ℚ), l.foldl g (b + c) = l.foldl g b + c := by
  intro l
  induction l with
  | nil => intro b c; rfl
  | cons x xs ih =>
    intro b c
    rw [List.foldl_cons, List.foldl_cons, hg, ih]

theorem ite_add_comm {P : Prop} [Decidable P] (x c d : ℚ) :
    (if P then (x + c) + d else x + c) = (if P then x + d else x) + c := by
  split_ifs <;> ring

/-- Stability of the descending sort: the sublist of entries sharing
one score value is unchanged by the sort, i.e. ties stay in original
order. -/
theorem insertionSort_filter_eq_of_pairwise {α : Type} (r : α → α → Prop) [DecidableRel r]
    (l : List α) (p : α → Bool) (hp : ∀ a b, p a = true → p b = true → r a b) :
    (l.insertionSort r).filter p = l.filter p := by
  have hcp : (l.filter p).Pairwise r :=
    List.pairwise_of_forall_mem_list fun a ha b hb =>
      hp a b (List.mem_filter.mp ha).2 (List.mem_filter.mp hb).2
  have hsub0 : (l.filter p).Sublist (l.insertionSort r) :=
    List.sublist_insertionSort hcp (List.filter_sublist l)
  have hcf : (l.filter p).filter p = l.filter p :=
    List.filter_eq_self.mpr fun a ha => (List.mem_filter.mp ha).2
  have hsub : (l.filter p).Sublist ((l.insertionSort r).filter p) := by
    have h2 := hsub0.filter p
    rwa [hcf] at h2
  have hlen : (l.filter p).length = ((l.insertionSort r).filter p).length :=
    (((List.perm_insertionSort r l).filter p).length_eq).symm
  exact (hsub.eq_of_length hlen).symm

theorem processHits_mem_spec (uql : String) (θ : ℚ) :
    ∀ (hits : List QueryFaqsQdrant.Hit) (seen : List String) (p : QueryFaqsQdrant.ScoredHit),
      p ∈ QueryFaqsQdrant.processHits uql θ hits seen →
        p.faq_data.faq_id ∉ seen
        ∧ θ ≤ p.final
        ∧ p.final = QueryFaqsQdrant.hitFinal uql p.faq_data
        ∧ hits.find?
            (fun h => decide (h.faq_id = p.faq_data.faq_id
              ∧ θ ≤ QueryFaqsQdrant.hitFinal uql h)) = some p.faq_data := by
  intro hits
  induction hits with
  | nil =>
    intro seen p hp
    exact absurd hp (List.not_mem_nil p)
  | cons h rest ih =>
    intro seen p hp
    rw [QueryFaqsQdrant.processHits] at hp
    by_cases hseen : h.faq_id ∈ seen
    · rw [if_pos hseen] at hp
      obtain ⟨h1, h2, h3, h4⟩ := ih seen p hp
      refine ⟨h1, h2, h3, ?_⟩
      rw [List.find?_cons_of_neg _ ?_]
      · exact h4
      · simp only [decide_eq_true_eq, not_and]
        intro hid
        exact absurd (hid ▸ hseen) h1
    · rw [if_neg hseen] at hp
      by_cases hpass : θ ≤ (if oodHit uql then h.score * (7/10) else h.score)
          + qdrantBoost uql (pyLower h.question)
      · rw [if_pos hpass] at hp
        rcases List.mem_cons.mp hp with heq | hrest
        · subst heq
          refine ⟨hseen, hpass, rfl, ?_⟩
          rw [List.find?_cons_of_pos _ ?_]
          · simp only [decide_eq_true_eq]
            exact ⟨trivial, hpass⟩
        · obtain ⟨h1, h2, h3, h4⟩ := ih (h.faq_id :: seen) p hrest
          refine ⟨fun hc => h1 (List.mem_cons_of_mem _ hc), h2, h3, ?_⟩
          rw [List.find?_cons_of_neg _ ?_]
          · exact h4
          · simp only [decide_eq_true_eq, not_and]
            intro hid
            exact absurd (List.mem_cons_self h.faq_id seen) (hid ▸ h1)
      · rw [if_neg hpass] at hp
        obtain ⟨h1, h2, h3, h4⟩ := ih seen p hp
        refine ⟨h1, h2, h3, ?_⟩
        rw [List.find?_cons_of_neg _ ?_]
        · exact h4
        · simp only [decide_eq_true_eq, not_and]
          intro _ hfin
          exact hpass hfin

theorem processHits_ids_nodup (uql : String) (θ : ℚ) :
    ∀ (hits : List QueryFaqsQdrant.Hit) (seen : List String),
      ((QueryFaqsQdrant.processHits uql θ hits seen).map
        (fun x => x.faq_data.faq_id)).Nodup
      ∧ ∀ i ∈ (QueryFaqsQdrant.processHits uql θ hits seen).map
          (fun x => x.faq_data.faq_id), i ∉ seen := by
  intro hits
  induction hits with
  | nil =>
    intro seen
    exact ⟨List.nodup_nil, fun i hi => absurd hi (List.not_mem_nil i)⟩
  | cons h rest ih =>
    intro seen
    rw [QueryFaqsQdrant.processHits]
    by_cases hseen : h.faq_id ∈ seen
    · rw [if_pos hseen]
      exact ih seen
    · rw [if_neg hseen]
      by_cases hpass : θ ≤ (if oodHit uql then h.score * (7/10) else h.score)
          + qdrantBoost uql (pyLower h.question)
      · rw [if_pos hpass]
        obtain ⟨ihn, ihs⟩ := ih (h.faq_id :: seen)
        rw [List.map_cons, List.nodup_cons]
        refine ⟨⟨fun hc => ?_, ihn⟩, fun i hi => ?_⟩
        · exact absurd (List.mem_cons_self h.faq_id seen) (ihs _ hc)
        · rcases List.mem_cons.mp hi with heq | hrest
          · exact heq ▸ hseen
          · exact fun hc => ihs i hrest (List.mem_cons_of_mem _ hc)
      · rw [if_neg hpass]
        exact ih seen

theorem contains_up_meaningful_false (fql : String) :
    (meaningfulWords fql).contains "up" = false := by
  cases hc : (meaningfulWords fql).contains "up" with
  | false => rfl
  | true =>
    exfalso
    have hmem : "up" ∈ meaningfulWords fql := by
      rw [← List.elem_iff]
      exact hc
    have hf := List.mem_filter.mp (List.mem_dedup.mp hmem)
    have hlen := (of_decide_eq_true hf.2).2
    simp [String.length] at hlen

theorem processRow_some {sim : List ℚ → List ℚ → ℚ} {qe : List ℚ} {uql : String}
    {kmap : String → List QueryFaqs.KwRow} {row : QueryFaqs.FaqRow} {r : QueryFaqs.ScoredRow}
    (h : QueryFaqs.processRow sim qe uql kmap row = some r) :
    row.embedding.length = qe.length ∧ r.faq_data = row := by
  by_cases hl : row.embedding.length ≠ qe.length
  · rw [QueryFaqs.processRow, if_pos hl] at h
    exact absurd h (by simp)
  · rw [QueryFaqs.processRow, if_neg hl] at h
    have he := Option.some.inj h
    refine ⟨by omega, ?_⟩
    rw [← he]

theorem totalMatches_self (a : List Char) : totalMatches a a = a.length := by
  rcases hn : a.length with _ | n
  · dsimp [totalMatches]
    rw [hn]
    exact matchesFuel_empty a a 0 0 0 0
  · dsimp [totalMatches]
    rw [hn, matchesFuel]
    have hflm : findLongestMatch a a 0 a.length 0 a.length = (0, 0, a.length) :=
      findLongestMatch_self a
    rw [hn] at hflm
    rw [hflm]
    dsimp only
    rw [if_neg (by omega)]
    simp only [Nat.zero_add]
    have h1 : matchesFuel a a (n + 1) 0 0 0 0 = 0 := matchesFuel_empty a a n 0 0 0
    have h2 : matchesFuel a a (n + 1) (n + 1) (n + 1) (n + 1) (n + 1) = 0 :=
      matchesFuel_empty a a n (n + 1) (n + 1) (n + 1)
    omega

/-!
## Claim theorems
-/

/-- C1, counterexample: the two backend variants do NOT produce the
same final scores on the same candidate with the same similarity
inputs.  One candidate with question text `"zz"` equal to the query,
similarity input 1 (constant similarity primitive on the relational
side, index score 1 on the vector side), no keywords, `top_k = 5`,
threshold `2/5`: the relational variant scores it
`1*0.5 + 0*0.3 + 1*0.2 = 0.7`, the vector variant `1 + boost = 1.5`. -/
theorem c1_counterexample :
    ¬ ((QueryFaqs.query_faqs (fun _ _ => 1) "zz"
          (.ok [⟨"f1", "c", "zz", "a", [1]⟩]) (.ok []) [1] 5 (2/5)).map Prod.fst =
        ((QueryFaqsQdrant.query_faqs "zz"
          (.ok [⟨"f1", "zz", "c", "a", 1⟩]) 5 (2/5)).toOption.getD []).map
          (fun x => x.final)) := by
  with_unfolding_all decide

/-- C1 (amended): the two variants do not share ranking semantics.
On the same single candidate with identical similarity inputs, the
relational variant returns final score `7/10` (the weighted sum
`base*0.5 + adjusted_keyword*0.3 + orthographic*0.2`, boost excluded)
while the vector-index variant returns `3/2` (index score plus boost). -/
theorem c1_variants_divergent_scores :
    QueryFaqs.query_faqs (fun _ _ => 1) "zz"
        (.ok [⟨"f1", "c", "zz", "a", [1]⟩]) (.ok []) [1] 5 (2/5) =
      [(7/10, ⟨"f1", "c", "zz", "a", [1]⟩)]
    ∧ (QueryFaqsQdrant.query_faqs "zz" (.ok [⟨"f1", "zz", "c", "a", 1⟩]) 5 (2/5)).toOption =
      some [QueryFaqsQdrant.ScoredHit.mk (3/2) 1 1 (1/2) ⟨"f1", "zz", "c", "a", 1⟩] := by
  constructor
  · with_unfolding_all decide
  · with_unfolding_all decide

/-- C2: in the relational-store variant the final score of every
scored candidate equals
`base_similarity*0.5 + adjusted_keyword_similarity*0.3 +
orthographic_similarity*0.2`, where the keyword similarity is
multiplied by `0.7` exactly when the raw lower-cased query word set
meets the out-of-domain set; the boost is not folded into the final
score (the formula mentions only the three similarity components), and
the reported boost is `relationalBoost`, a function of the two texts
alone, never touched by the penalty. -/
theorem c2_relational_final_score (sim : List ℚ → List ℚ → ℚ) (qe : List ℚ) (uql : String)
    (kmap : String → List QueryFaqs.KwRow) (row : QueryFaqs.FaqRow) (r : QueryFaqs.ScoredRow)
    (h : QueryFaqs.processRow sim qe uql kmap row = some r) :
    r.final = r.base_similarity * (1/2)
        + (if oodHit uql then r.keyword_similarity * (7/10) else r.keyword_similarity) * (3/10)
        + r.orthographic * (1/5)
      ∧ r.boost = relationalBoost uql (pyLower row.question) := by
  by_cases hl : row.embedding.length ≠ qe.length
  · rw [QueryFaqs.processRow, if_pos hl] at h
    exact absurd h (by simp)
  · rw [QueryFaqs.processRow, if_neg hl] at h
    have he := Option.some.inj h
    rw [← he]
    exact ⟨rfl, rfl⟩

set_option maxRecDepth 8000 in
/-- C2, witness: the theorem applied to a concrete candidate
(query `"zz"`, question `"zz"`, similarity input 1, no keywords). -/
theorem c2_relational_final_score_witness :
    (7/10 : ℚ) = 1 * (1/2) + (if oodHit "zz" then (0 : ℚ) * (7/10) else (0 : ℚ)) * (3/10)
        + orthographic_similarity "zz" "zz" * (1/5)
      ∧ relationalBoost "zz" "zz" = relationalBoost "zz" (pyLower "zz") := by
  have h : QueryFaqs.processRow (fun _ _ => (1 : ℚ)) [1] "zz" (fun _ => [])
      ⟨"f1", "c", "zz", "a", [1]⟩ =
      some ⟨7/10, 1, 0, orthographic_similarity "zz" "zz", relationalBoost "zz" "zz",
        ⟨"f1", "c", "zz", "a", [1]⟩⟩ := by
    with_unfolding_all decide
  exact c2_relational_final_score _ _ _ _ _ _ h

/-- C5, code bug: the "create"/"sign up" special case of the
vector-index variant tests the stop-word- and length-filtered word
sets, where the length-2 token `"up"` can never appear, so its guard
is identically false and the rule is dead code — contradicting its own
comment and the relational original, which test the raw word sets.
On query `"create account"` and question `"sign up now"` the
relational boost is exactly `0.2` larger than the vector-index one. -/
theorem c5_qdrant_special_case_dead :
    (∀ uql fql : String, qdrantSpecialCond uql fql = false)
    ∧ relationalBoost "create account" "sign up now"
        = qdrantBoost "create account" "sign up now" + 1/5 := by
  constructor
  · intro uql fql
    rw [qdrantSpecialCond, contains_up_meaningful_false]
    simp
  · with_unfolding_all decide

/-- C6, counterexample: in the vector-index variant a retrieval
failure is NOT caught — `query_faqs` propagates the error to the
caller instead of returning an empty result list. -/
theorem c6_counterexample :
    QueryFaqsQdrant.query_faqs "hi" (.error "connection refused") 5 (2/5) =
      .error "connection refused" := rfl

/-- C6 (amended): in the relational-store variant any retrieval
failure (FAQ query or keyword query) is caught at the retrieval
boundary and `query_faqs` returns `[]`; in the vector-index variant an
empty search response yields an empty result list, but a raised
retrieval error propagates to the caller uncaught. -/
theorem c6_retrieval_failure_handling :
    (∀ (sim : List ℚ → List ℚ → ℚ) (uq e : String)
        (kwRes : Except String (List QueryFaqs.KwRow)) (qe : List ℚ) (k : Nat) (θ : ℚ),
        QueryFaqs.query_faqs sim uq (.error e) kwRes qe k θ = [])
    ∧ (∀ (sim : List ℚ → List ℚ → ℚ) (uq e : String)
        (faqRes : Except String (List QueryFaqs.FaqRow)) (qe : List ℚ) (k : Nat) (θ : ℚ),
        QueryFaqs.query_faqs sim uq faqRes (.error e) qe k θ = [])
    ∧ (∀ (uq : String) (k : Nat) (θ : ℚ),
        QueryFaqsQdrant.query_faqs uq (.ok []) k θ = .ok [])
    ∧ (∀ (uq e : String) (k : Nat) (θ : ℚ),
        QueryFaqsQdrant.query_faqs uq (.error e) k θ = .error e) := by
  refine ⟨fun sim uq e kwRes qe k θ => ?_, fun sim uq e faqRes qe k θ => ?_,
    fun uq k θ => rfl, fun uq e k θ => rfl⟩
  · cases kwRes <;> rfl
  · cases faqRes <;> rfl

/-- C10: in both variants the computed boost is non-negative — every
rule only ever adds a non-negative amount, and the out-of-domain
penalty multiplies a similarity term, not the boost. -/
theorem c10_boost_nonneg (uql fql : String) :
    0 ≤ relationalBoost uql fql ∧ 0 ≤ qdrantBoost uql fql := by
  have hword : ∀ (fs : List String) (l : List String) (b : ℚ),
      b ≤ l.foldl (fun b w => if fs.contains w then b + 1/20 else b) b := by
    intro fs
    refine le_foldl_of_step _ fun b w => ?_
    split <;> linarith
  have hpair : ∀ (qr fr : List String) (b : ℚ),
      b ≤ related_term_pairs.foldl
        (fun b p =>
          if p.1.any (fun w => qr.contains w) ∧ p.2.any (fun w => fr.contains w) then
            b + 3/20
          else b) b := by
    intro qr fr
    refine le_foldl_of_step _ (fun b p => ?_) _
    split <;> linarith
  have hmr : ∀ (qs cs : List String),
      (0 : ℚ) ≤ (if qs ≠ [] then (cs.length : ℚ) / (qs.length : ℚ) else 0) * (3 / 20) := by
    intro qs cs
    refine mul_nonneg ?_ (by norm_num)
    split
    · positivity
    · exact le_refl 0
  have hgate : ∀ s1 s2 : String,
      (0 : ℚ) ≤ if 3/10 < orthographic_similarity s1 s2 then
        0 + orthographic_similarity s1 s2 * (1/5) else 0 := by
    intro s1 s2
    split
    · have := ortho_nonneg s1 s2
      linarith
    · exact le_refl 0
  constructor
  · dsimp only [relationalBoost]
    refine le_trans ?_ (hpair _ _ _)
    refine ite_add_nonneg ?_ (by norm_num)
    refine le_trans ?_ (hword _ _ _)
    refine ite_add_nonneg ?_ (by norm_num)
    refine ite_add_nonneg ?_ (hmr _ _)
    exact hgate uql fql
  · dsimp only [qdrantBoost]
    refine le_trans ?_ (hpair _ _ _)
    refine ite_add_nonneg ?_ (by norm_num)
    refine le_trans ?_ (hword _ _ _)
    refine ite_add_nonneg ?_ (by norm_num)
    refine ite_add_nonneg ?_ (hmr _ _)
    exact hgate uql fql

/-- C7, counterexample: the sequence-alignment ratio is NOT symmetric.
`ratio("aabb.c", "bbcaa") = 4/11` but `ratio("bbcaa", "aabb.c") =
6/11`: the two directions tie-break the two equally long blocks
`"aa"`/`"bb"` differently (earliest in the first argument wins), and
only one choice leaves the `"c"` matchable. -/
theorem c7_counterexample :
    orthographic_similarity "aabb.c" "bbcaa" ≠ orthographic_similarity "bbcaa" "aabb.c" := by
  with_unfolding_all decide

/-- C7 (amended): the ratio of any string with itself is 1.0 (the
symmetry half of the claim is refuted by `c7_counterexample`): on
`(s, s)` the dynamic program of `find_longest_match` finds the whole
string as the longest block, so the total matched size is `|s|` and
the ratio is `2|s| / 2|s| = 1` (and 1.0 on two empty strings by the
`total == 0` guard). -/
theorem c7_self_ratio_one (s : String) : orthographic_similarity s s = 1 := by
  dsimp only [orthographic_similarity, ratioChars]
  rw [totalMatches_self]
  rcases Nat.eq_zero_or_pos s.data.length with h0 | h1
  · rw [if_pos (by omega)]
  · rw [if_neg (by omega)]
    have hne : ((s.data.length : ℚ)) ≠ 0 := by
      exact_mod_cast Nat.pos_iff_ne_zero.mp h1
    push_cast
    have hne2 : ((s.data.length : ℚ)) + (s.data.length : ℚ) ≠ 0 := by
      intro hc
      apply hne
      linarith
    rw [div_eq_one_iff_eq hne2]
    ring

/-- C8, counterexample: inserting the literal lower-cased query into
the candidate's question text need not increase the boost by 0.3 — it
can strictly DECREASE the boost.  Query `"create login"` against
`"sign up zzz…"` (56 chars) gets boost `0.5` (special case 0.2 +
related pairs 1 and 3); inserting the query inside `"sign"` destroys
the tokens `"sign"`/`"login"`-targets (special case and pair 3 turn
off, −0.35) while gaining only the substring rule (+0.3, the
orthographic ratio stays at the `> 0.3` gate), so the boost drops to
`0.45`. -/
theorem c8_counterexample :
    ¬ (("create login" : String).data <:+:
        ("sign up zzzzzzzzzzzzzzzzzzzzzzzzzzzzzzzzzzzzzzzzzzzzzzzz" : String).data)
    ∧ (("create login" : String).data <:+:
        ("sicreate logingn up zzzzzzzzzzzzzzzzzzzzzzzzzzzzzzzzzzzzzzzzzzzzzzzz" : String).data)
    ∧ ("sicreate logingn up zzzzzzzzzzzzzzzzzzzzzzzzzzzzzzzzzzzzzzzzzzzzzzzz" : String)
        = ⟨("sign up zzzzzzzzzzzzzzzzzzzzzzzzzzzzzzzzzzzzzzzzzzzzzzzz" : String).data.take 2
            ++ ("create login" : String).data
            ++ ("sign up zzzzzzzzzzzzzzzzzzzzzzzzzzzzzzzzzzzzzzzzzzzzzzzz" : String).data.drop 2⟩
    ∧ relationalBoost "create login"
          "sicreate logingn up zzzzzzzzzzzzzzzzzzzzzzzzzzzzzzzzzzzzzzzzzzzzzzzz"
        < relationalBoost "create login"
          "sign up zzzzzzzzzzzzzzzzzzzzzzzzzzzzzzzzzzzzzzzzzzzzzzzz" := by
  refine ⟨by with_unfolding_all decide, by with_unfolding_all decide,
    by with_unfolding_all decide, by with_unfolding_all decide⟩

/-- C8 (amended): the exact-phrase rule contributes exactly `+0.3`
when the literal lower-cased query occurs in the lower-cased question:
the boost decomposes as the phrase-free chain plus
`0.3·[query is a substring]`.  The insertion of the query also changes
the orthographic and word-set components, so the TOTAL boost need not
increase by 0.3 (see `c8_counterexample`, where it strictly
decreases). -/
theorem c8_phrase_rule_adds_three_tenths (uql fql : String) :
    relationalBoost uql fql =
      relationalBoostNoPhrase uql fql + (if uql.data <:+: fql.data then 3/10 else 0) := by
  have hw : ∀ (fs : List String) (b c : ℚ) (x : String),
      (if fs.contains x then (b + c) + 1/20 else (b + c))
        = (if fs.contains x then b + 1/20 else b) + c := by
    intro fs b c x
    split_ifs <;> ring
  have hp : ∀ (qr fr : List String) (b c : ℚ) (x : List String × List String),
      (if x.1.any (fun w => qr.contains w) ∧ x.2.any (fun w => fr.contains w) then
          (b + c) + 3/20 else (b + c))
        = (if x.1.any (fun w => qr.contains w) ∧ x.2.any (fun w => fr.contains w) then
          b + 3/20 else b) + c := by
    intro qr fr b c x
    split_ifs <;> ring
  dsimp only [relationalBoost, relationalBoostNoPhrase]
  by_cases hs : uql.data <:+: fql.data
  · rw [if_pos hs, if_pos hs]
    rw [foldl_add_right _ (hw (meaningfulWords fql)), ite_add_comm,
      foldl_add_right _ (hp (rawWords uql) (rawWords fql))]
  · rw [if_neg hs, if_neg hs]
    ring

/-- C3: in both variants the returned list is sorted in descending
order of final score with ties kept in original retrieval order (the
sort is stable: for every score value `s`, the entries scoring `s`
form a sublist of the pre-sort candidate list), contains only entries
whose final score meets `min_similarity_threshold`, and has length at
most `top_k`. -/
theorem c3_ranked_output :
    (∀ (sim : List ℚ → List ℚ → ℚ) (uq : String) (faqs : List QueryFaqs.FaqRow)
        (kws : List QueryFaqs.KwRow) (qe : List ℚ) (k : Nat) (θ : ℚ),
        (QueryFaqs.query_faqs sim uq (.ok faqs) (.ok kws) qe k θ).length ≤ k
        ∧ (∀ p ∈ QueryFaqs.query_faqs sim uq (.ok faqs) (.ok kws) qe k θ, θ ≤ p.1)
        ∧ (QueryFaqs.query_faqs sim uq (.ok faqs) (.ok kws) qe k θ).Sorted
            (fun x y => y.1 ≤ x.1)
        ∧ (∀ s : ℚ,
            ((QueryFaqs.query_faqs sim uq (.ok faqs) (.ok kws) qe k θ).filter
                (fun x => decide (x.1 = s))).Sublist
              (((QueryFaqs.relScored sim qe (pyLower uq) kws faqs).map
                  (fun x => (x.final, x.faq_data))).filter (fun x => decide (x.1 = s)))))
    ∧ (∀ (uq : String) (hits : List QueryFaqsQdrant.Hit) (k : Nat) (θ : ℚ),
        (QueryFaqsQdrant.rankHits uq hits k θ).length ≤ k
        ∧ (∀ p ∈ QueryFaqsQdrant.rankHits uq hits k θ, θ ≤ p.final)
        ∧ (QueryFaqsQdrant.rankHits uq hits k θ).Sorted (fun x y => y.final ≤ x.final)
        ∧ (∀ s : ℚ,
            ((QueryFaqsQdrant.rankHits uq hits k θ).filter
                (fun x => decide (x.final = s))).Sublist
              ((QueryFaqsQdrant.processHits (pyLower uq) θ hits []).filter
                (fun x => decide (x.final = s))))
        ∧ QueryFaqsQdrant.query_faqs uq (.ok hits) k θ
            = .ok (QueryFaqsQdrant.rankHits uq hits k θ)) := by
  constructor
  · intro sim uq faqs kws qe k θ
    haveI i1 : IsTotal QueryFaqs.ScoredRow (fun x y => y.final ≤ x.final) :=
      ⟨fun a b => le_total b.final a.final⟩
    haveI i2 : IsTrans QueryFaqs.ScoredRow (fun x y => y.final ≤ x.final) :=
      ⟨fun _ _ _ hab hbc => le_trans hbc hab⟩
    by_cases hf : faqs = []
    · simp only [QueryFaqs.query_faqs, if_pos hf]
      exact ⟨by simp, fun p hp => absurd hp (List.not_mem_nil p), List.sorted_nil,
        fun s => by simp⟩
    · simp only [QueryFaqs.query_faqs, if_neg hf]
      refine ⟨List.length_take_le k _, ?_, ?_, ?_⟩
      · intro p hp
        obtain ⟨x, hx, hfx⟩ := List.mem_map.mp (List.mem_of_mem_take hp)
        have hθ := of_decide_eq_true (List.mem_filter.mp hx).2
        rw [← hfx]
        exact hθ
      · have hs := List.sorted_insertionSort (fun x y : QueryFaqs.ScoredRow => y.final ≤ x.final)
          (QueryFaqs.relScored sim qe (pyLower uq) kws faqs)
        have p1 : (((QueryFaqs.relScored sim qe (pyLower uq) kws faqs).insertionSort
              (fun x y => y.final ≤ x.final)).filter
              (fun x => decide (θ ≤ x.final))).Pairwise
            (fun x y => y.final ≤ x.final) :=
          List.Pairwise.sublist (List.filter_sublist _) hs
        have p2 : ((((QueryFaqs.relScored sim qe (pyLower uq) kws faqs).insertionSort
              (fun x y => y.final ≤ x.final)).filter
              (fun x => decide (θ ≤ x.final))).map
              (fun x => (x.final, x.faq_data))).Pairwise
            (fun x y : ℚ × QueryFaqs.FaqRow => y.1 ≤ x.1) :=
          List.Pairwise.map _ (fun _ _ h => h) p1
        exact List.Pairwise.sublist (List.take_sublist _ _) p2
      · intro s
        have L1 := insertionSort_filter_eq_of_pairwise
          (fun x y : QueryFaqs.ScoredRow => y.final ≤ x.final)
          (QueryFaqs.relScored sim qe (pyLower uq) kws faqs)
          (fun x => decide (x.final = s))
          (fun a b ha hb => by
            show b.final ≤ a.final
            rw [of_decide_eq_true ha, of_decide_eq_true hb])
        refine List.Sublist.trans (List.Sublist.filter _ (List.take_sublist k _)) ?_
        rw [List.filter_map, List.filter_map]
        refine List.Sublist.map _ ?_
        have hcongr : ∀ l : List QueryFaqs.ScoredRow,
            (l.filter ((fun x : ℚ × QueryFaqs.FaqRow => decide (x.1 = s)) ∘
              (fun x => (x.final, x.faq_data))))
              = l.filter (fun x => decide (x.final = s)) :=
          fun l => List.filter_congr (fun x _ => rfl)
        rw [hcongr, hcongr, ← L1]
        exact List.Sublist.filter _ (List.filter_sublist _)
  · intro uq hits k θ
    haveI i1 : IsTotal QueryFaqsQdrant.ScoredHit (fun x y => y.final ≤ x.final) :=
      ⟨fun a b => le_total b.final a.final⟩
    haveI i2 : IsTrans QueryFaqsQdrant.ScoredHit (fun x y => y.final ≤ x.final) :=
      ⟨fun _ _ _ hab hbc => le_trans hbc hab⟩
    by_cases hh : hits = []
    · subst hh
      refine ⟨by simp [QueryFaqsQdrant.rankHits], fun p hp => ?_, ?_, fun s => ?_, rfl⟩
      · simp [QueryFaqsQdrant.rankHits] at hp
      · simp [QueryFaqsQdrant.rankHits]
      · simp [QueryFaqsQdrant.rankHits]
    · refine ⟨?_, ?_, ?_, ?_, rfl⟩
      · simp only [QueryFaqsQdrant.rankHits, if_neg hh]
        exact List.length_take_le k _
      · intro p hp
        simp only [QueryFaqsQdrant.rankHits, if_neg hh] at hp
        have hp1 := (List.mem_insertionSort _).mp (List.mem_of_mem_take hp)
        exact (processHits_mem_spec (pyLower uq) θ hits [] p hp1).2.1
      · simp only [QueryFaqsQdrant.rankHits, if_neg hh]
        have hs := List.sorted_insertionSort
          (fun x y : QueryFaqsQdrant.ScoredHit => y.final ≤ x.final)
          (QueryFaqsQdrant.processHits (pyLower uq) θ hits [])
        exact List.Pairwise.sublist (List.take_sublist _ _) hs
      · intro s
        simp only [QueryFaqsQdrant.rankHits, if_neg hh]
        have L1 := insertionSort_filter_eq_of_pairwise
          (fun x y : QueryFaqsQdrant.ScoredHit => y.final ≤ x.final)
          (QueryFaqsQdrant.processHits (pyLower uq) θ hits [])
          (fun x => decide (x.final = s))
          (fun a b ha hb => by
            show b.final ≤ a.final
            rw [of_decide_eq_true ha, of_decide_eq_true hb])
        refine List.Sublist.trans (List.Sublist.filter _ (List.take_sublist k _)) ?_
        rw [L1]

/-- C3, witness: the relational pipeline on one candidate with
threshold `2/5` returns it with score `7/10`, which meets the
threshold. -/
theorem c3_ranked_output_witness :
    (2/5 : ℚ) ≤ ((7/10 : ℚ), (⟨"f1", "c", "zz", "a", [1]⟩ : QueryFaqs.FaqRow)).1 :=
  (c3_ranked_output.1 (fun _ _ => 1) "zz" [⟨"f1", "c", "zz", "a", [1]⟩] [] [1] 5 (2/5)).2.1
    ((7/10 : ℚ), ⟨"f1", "c", "zz", "a", [1]⟩) (by with_unfolding_all decide)

/-- C4: a candidate FAQ row whose parsed stored embedding length
differs from the query embedding length is skipped and absent from the
final ranked output (every returned row has a matching length), and a
keyword embedding of mismatched length contributes nothing to
`keyword_similarity` (the fold equals the fold over the
matching-length keywords only). -/
theorem c4_dimension_mismatch_skipped :
    (∀ (sim : List ℚ → List ℚ → ℚ) (uq : String) (faqs : List QueryFaqs.FaqRow)
        (kws : List QueryFaqs.KwRow) (qe : List ℚ) (k : Nat) (θ : ℚ)
        (p : ℚ × QueryFaqs.FaqRow),
        p ∈ QueryFaqs.query_faqs sim uq (.ok faqs) (.ok kws) qe k θ →
          p.2.embedding.length = qe.length)
    ∧ (∀ (sim : List ℚ → List ℚ → ℚ) (qe : List ℚ) (kws : List QueryFaqs.KwRow),
        QueryFaqs.keywordSimilarity sim qe kws =
          QueryFaqs.keywordSimilarity sim qe
            (kws.filter fun kw => decide (kw.embedding.length = qe.length))) := by
  constructor
  · intro sim uq faqs kws qe k θ p hp
    by_cases hf : faqs = []
    · rw [QueryFaqs.query_faqs] at hp
      rw [if_pos hf] at hp
      exact absurd hp (List.not_mem_nil p)
    · rw [QueryFaqs.query_faqs] at hp
      rw [if_neg hf] at hp
      obtain ⟨x, hx, hfx⟩ := List.mem_map.mp (List.mem_of_mem_take hp)
      have h2 := (List.mem_filter.mp hx).1
      have h3 := (List.mem_insertionSort _).mp h2
      obtain ⟨row, _, hsome⟩ := List.mem_filterMap.mp h3
      obtain ⟨hlen, hfd⟩ := processRow_some hsome
      rw [← hfx]
      dsimp only
      rw [hfd]
      exact hlen
  · intro sim qe kws
    dsimp only [QueryFaqs.keywordSimilarity]
    suffices h : ∀ (l : List QueryFaqs.KwRow) (acc : ℚ),
        l.foldl (fun acc kw =>
          if kw.embedding.length = qe.length then max acc (sim qe kw.embedding) else acc) acc =
        (l.filter fun kw => decide (kw.embedding.length = qe.length)).foldl
          (fun acc kw =>
            if kw.embedding.length = qe.length then max acc (sim qe kw.embedding) else acc) acc by
      exact h kws 0
    intro l
    induction l with
    | nil => intro acc; rfl
    | cons kw rest ih =>
      intro acc
      by_cases hlen : kw.embedding.length = qe.length
      · rw [List.filter_cons_of_pos (by simpa using hlen), List.foldl_cons, List.foldl_cons]
        exact ih _
      · rw [List.filter_cons_of_neg (by simpa using hlen), List.foldl_cons, if_neg hlen]
        exact ih _

/-- C4, witness: with query embedding `[1]`, a knowledge base holding
one matching-dimension row and one 2-dimensional row, the returned
entry has embedding length 1 (the mismatched row is skipped). -/
theorem c4_dimension_mismatch_skipped_witness :
    (((7/10 : ℚ), (⟨"f1", "c", "zz", "a", [1]⟩ : QueryFaqs.FaqRow)) :
        ℚ × QueryFaqs.FaqRow).2.embedding.length = [(1 : ℚ)].length :=
  c4_dimension_mismatch_skipped.1 (fun _ _ => 1) "zz"
    [⟨"f1", "c", "zz", "a", [1]⟩, ⟨"f2", "c", "qq", "a", [1, 2]⟩] [] [1] 5 (2/5)
    ((7/10 : ℚ), ⟨"f1", "c", "zz", "a", [1]⟩) (by with_unfolding_all decide)

/-- C9, counterexample: the vector-index variant does NOT always keep
the first (highest-scored) occurrence of a `faq_id`.  Two score-sorted
hits share `faq_id = "f1"`; the first scores `11/20` and falls below
the threshold `3/5` (so its id is never marked seen), the second
passes thanks to its boost — the returned entry for `"f1"` comes from
the LATER hit. -/
theorem c9_counterexample :
    ((QueryFaqsQdrant.query_faqs "create account"
        (.ok [⟨"f1", "zzzz", "c", "a", 11/20⟩, ⟨"f1", "how do i sign up", "c", "a", 1/2⟩])
        5 (3/5)).toOption.getD []).map (fun x => x.faq_data.question)
      = ["how do i sign up"] := by
  with_unfolding_all decide

/-- C9 (amended): the vector-index variant deduplicates by `faq_id`
among threshold-passing hits: every entry of the processed list has
its final score equal to that hit's score-plus-boost, and it stems
from the FIRST hit with that `faq_id` whose final score meets the
threshold (an earlier same-id hit below the threshold does not seal
the id); each `faq_id` appears at most once in the ranked output. -/
theorem c9_dedup_first_passing :
    (∀ (uql : String) (θ : ℚ) (hits : List QueryFaqsQdrant.Hit)
        (p : QueryFaqsQdrant.ScoredHit),
        p ∈ QueryFaqsQdrant.processHits uql θ hits [] →
          p.final = QueryFaqsQdrant.hitFinal uql p.faq_data
          ∧ hits.find? (fun h => decide (h.faq_id = p.faq_data.faq_id
              ∧ θ ≤ QueryFaqsQdrant.hitFinal uql h)) = some p.faq_data)
    ∧ (∀ (uq : String) (hits : List QueryFaqsQdrant.Hit) (k : Nat) (θ : ℚ),
        ((QueryFaqsQdrant.rankHits uq hits k θ).map (fun x => x.faq_data.faq_id)).Nodup) := by
  constructor
  · intro uql θ hits p hp
    obtain ⟨_, _, h3, h4⟩ := processHits_mem_spec uql θ hits [] p hp
    exact ⟨h3, h4⟩
  · intro uq hits k θ
    by_cases hh : hits = []
    · simp [QueryFaqsQdrant.rankHits, hh]
    · rw [QueryFaqsQdrant.rankHits, if_neg hh]
      dsimp only
      have hnd := (processHits_ids_nodup (pyLower uq) θ hits []).1
      have hperm : (((QueryFaqsQdrant.processHits (pyLower uq) θ hits []).insertionSort
            (fun x y => y.final ≤ x.final)).map (fun x => x.faq_data.faq_id)).Perm
          ((QueryFaqsQdrant.processHits (pyLower uq) θ hits []).map
            (fun x => x.faq_data.faq_id)) :=
        (List.perm_insertionSort _ _).map _
      have hnd2 := hperm.symm.nodup hnd
      exact List.Nodup.sublist (List.Sublist.map _ (List.take_sublist _ _)) hnd2

/-- C9, witness: the first-passing-hit characterization applied to the
two-hit counterexample input — `find?` returns the second hit. -/
theorem c9_dedup_first_passing_witness :
    QueryFaqsQdrant.hitFinal "create account" ⟨"f1", "how do i sign up", "c", "a", 1/2⟩
        = QueryFaqsQdrant.hitFinal "create account" ⟨"f1", "how do i sign up", "c", "a", 1/2⟩
      ∧ ([(⟨"f1", "zzzz", "c", "a", 11/20⟩ : QueryFaqsQdrant.Hit),
            ⟨"f1", "how do i sign up", "c", "a", 1/2⟩].find?
          (fun h => decide (h.faq_id = "f1"
            ∧ 3/5 ≤ QueryFaqsQdrant.hitFinal "create account" h)))
        = some ⟨"f1", "how do i sign up", "c", "a", 1/2⟩ :=
  c9_dedup_first_passing.1 "create account" (3/5)
    [⟨"f1", "zzzz", "c", "a", 11/20⟩, ⟨"f1", "how do i sign up", "c", "a", 1/2⟩]
    ⟨QueryFaqsQdrant.hitFinal "create account" ⟨"f1", "how do i sign up", "c", "a", 1/2⟩,
      1/2, orthographic_similarity "create account" (pyLower "how do i sign up"),
      qdrantBoost "create account" (pyLower "how do i sign up"),
      ⟨"f1", "how do i sign up", "c", "a", 1/2⟩⟩
    (by with_unfolding_all decide)

end XunoFaq

